import Mathlib

/-!
Verification of the service-registry core of the `medical_ml` repository.

The embedding follows `src/registry/backend/storage/service_store.py`
(the `ServiceStore` class), `src/registry/backend/routes/services.py`
(the HTTP route layer) and `src/registry/backend/main.py` (the
aggregate-health endpoint), over the data model of
`src/shared/medical_ml_sdk/core/schemas.py` (`ServiceMetadata`).

Modelling decisions:
* Python `dict` objects are modelled as association lists with
  Python-dict update semantics: inserting at an existing key replaces the
  value in place, inserting at a fresh key appends at the end, so that
  iteration order matches Python's insertion order.
* `datetime.now()` is modelled by an explicit clock argument `now : Int`
  threaded into each operation that reads the clock; `.isoformat()` is
  modelled by rendering the clock value to a string.
* The opaque JSON passthrough fields (`input_schema`, `output_schema`,
  `capabilities`) and probed health bodies are modelled by a small JSON
  value type.
* A Python expression that can raise (the `self._services[sid]` lookup
  inside `get_healthy_services`, or the body handling in the aggregate
  health probe) is modelled with `Option` / explicit failure alternatives.
-/

set_option autoImplicit false

namespace MedicalML

/-- JSON values, for the opaque passthrough fields of `ServiceMetadata`
and for remote health-check response bodies. -/
inductive Json where
  | null : Json
  | bool (b : Bool) : Json
  | num (n : Int) : Json
  | str (s : String) : Json
  | arr (elems : List Json) : Json
  | obj (fields : List (String × Json)) : Json

/-- The `ServiceMetadata` pydantic model of
`src/shared/medical_ml_sdk/core/schemas.py`: the record stored for one
registered service.  `registered_at` is populated by a default factory at
construction time; `last_heartbeat` defaults to `None`. -/
structure ServiceMetadata where
  service_id : String
  service_name : String
  version : String
  description : String
  base_url : String
  port : Int
  endpoints : List (String × String)
  input_schema : Json
  output_schema : Json
  tags : List String
  capabilities : Option Json
  registered_at : String
  last_heartbeat : Option String

/-- Python `dict` lookup `d.get(k)` / `d[k]` on an association list:
returns the value at the first (unique, in real dict states) matching
key. -/
def dictLookup {α : Type} (k : String) : List (String × α) → Option α
  | [] => none
  | (k', v) :: rest => if k' = k then some v else dictLookup k rest

/-- Python `dict` assignment `d[k] = v`: replaces the value at an
existing key in place, otherwise appends the new binding at the end
(Python dicts preserve insertion order). -/
def dictInsert {α : Type} (k : String) (v : α) : List (String × α) → List (String × α)
  | [] => [(k, v)]
  | (k', v') :: rest =>
    if k' = k then (k, v) :: rest else (k', v') :: dictInsert k v rest

/-- Python `d.pop(k, None)`: removes the binding at `k` when present,
otherwise leaves the dict unchanged. -/
def dictErase {α : Type} (k : String) : List (String × α) → List (String × α)
  | [] => []
  | (k', v) :: rest => if k' = k then rest else (k', v) :: dictErase k rest

/-- In-place mutation of the value stored at key `k`
(`d[k].field = ...` in Python): applies `f` at the first matching key. -/
def dictMapAt {α : Type} (k : String) (f : α → α) : List (String × α) → List (String × α)
  | [] => []
  | (k', v) :: rest =>
    if k' = k then (k', f v) :: rest else (k', v) :: dictMapAt k f rest

/-- `datetime.isoformat()` on the abstract clock: renders the clock value
as a timestamp string. -/
def isoformat (now : Int) : String := toString now

/-- The `ServiceStore` state of
`src/registry/backend/storage/service_store.py`: the `_services` record
map and the `_heartbeats` timestamp map.  `ServiceStore.__init__`
initialises both to empty dicts (and nothing else: in particular it
creates no lock object). -/
structure ServiceStore where
  services : List (String × ServiceMetadata)
  heartbeats : List (String × Int)

/-- The store as built by `ServiceStore.__init__`. -/
def emptyStore : ServiceStore := ⟨[], []⟩

namespace ServiceStore

/-- `ServiceStore.add_service`: upserts the record at its `service_id`
and stamps the internal heartbeat map with `datetime.now()`.  The stored
record object is the submitted one, untouched. -/
def add_service (st : ServiceStore) (metadata : ServiceMetadata) (now : Int) : ServiceStore :=
  { services := dictInsert metadata.service_id metadata st.services
    heartbeats := dictInsert metadata.service_id now st.heartbeats }

/-- `ServiceStore.get_service`: `self._services.get(service_id)`. -/
def get_service (st : ServiceStore) (service_id : String) : Option ServiceMetadata :=
  dictLookup service_id st.services

/-- `ServiceStore.get_all_services`: `list(self._services.values())`. -/
def get_all_services (st : ServiceStore) : List ServiceMetadata :=
  st.services.map Prod.snd

/-- `ServiceStore.remove_service`: when the id is registered, pops the
record and its heartbeat entry and returns `True`; otherwise returns
`False` leaving the store untouched.  The pair is (return value,
resulting store). -/
def remove_service (st : ServiceStore) (service_id : String) : Bool × ServiceStore :=
  if (dictLookup service_id st.services).isSome then
    (true,
      { services := dictErase service_id st.services
        heartbeats := dictErase service_id st.heartbeats })
  else
    (false, st)

/-- `ServiceStore.update_heartbeat`: when the id is registered, stamps
the heartbeat map with `datetime.now()` and sets the stored record's
`last_heartbeat` field to `datetime.now().isoformat()`, returning
`True`; otherwise returns `False` without side effects. -/
def update_heartbeat (st : ServiceStore) (service_id : String) (now : Int) :
    Bool × ServiceStore :=
  if (dictLookup service_id st.services).isSome then
    (true,
      { services :=
          dictMapAt service_id
            (fun m => { m with last_heartbeat := some (isoformat now) }) st.services
        heartbeats := dictInsert service_id now st.heartbeats })
  else
    (false, st)

/-- The list comprehension of `ServiceStore.get_healthy_services`:
walks the (already filtered) heartbeat entries and looks each key up in
`self._services` — `self._services[sid]` raises `KeyError` when the key
is missing, modelled by `none`. -/
def healthyAux (services : List (String × ServiceMetadata)) :
    List (String × Int) → Option (List ServiceMetadata)
  | [] => some []
  | (sid, _) :: rest =>
    match dictLookup sid services, healthyAux services rest with
    | some m, some l => some (m :: l)
    | _, _ => none

/-- `ServiceStore.get_healthy_services`: `cutoff = now - timeout`; keeps
every heartbeat entry with `hb > cutoff` and returns the corresponding
records.  `none` models the `KeyError` the comprehension would raise on
a heartbeat key absent from the record map. -/
def get_healthy_services (st : ServiceStore) (timeout_seconds now : Int) :
    Option (List ServiceMetadata) :=
  healthyAux st.services
    (st.heartbeats.filter (fun p => now - timeout_seconds < p.2))

/-- `ServiceStore.search_by_tags`: empty tag list delegates to
`get_all_services`; otherwise keeps the records having at least one tag
in common with the query (`any(tag in svc.tags for tag in tags)`). -/
def search_by_tags (st : ServiceStore) (tags : List String) : List ServiceMetadata :=
  if tags.isEmpty then st.get_all_services
  else
    (st.services.map Prod.snd).filter
      (fun svc => tags.any (fun tag => svc.tags.contains tag))

/-- `ServiceStore.get_service_count`: `len(self._services)`. -/
def get_service_count (st : ServiceStore) : Nat :=
  st.services.length

/-- `ServiceStore.service_exists`: `service_id in self._services`. -/
def service_exists (st : ServiceStore) (service_id : String) : Bool :=
  (dictLookup service_id st.services).isSome

end ServiceStore

/-! ### String helpers modelling the Python string operations used by the
route layer and the aggregate-health endpoint. -/

/-- Python `str.lower()`. -/
def pyLower (s : String) : String :=
  String.mk (s.data.map Char.toLower)

/-- Python `str.split(",")` on the character list: splits at every comma,
keeping empty pieces, and returns at least one piece. -/
def splitCommaChars : List Char → List (List Char)
  | [] => [[]]
  | c :: rest =>
    match splitCommaChars rest with
    | [] => [[]]
    | grp :: grps =>
      if c = ',' then [] :: grp :: grps else (c :: grp) :: grps

/-- Python `str.split(",")`. -/
def splitComma (s : String) : List String :=
  (splitCommaChars s.data).map String.mk

/-- Python `str.strip()`: removes leading and trailing whitespace. -/
def pyStrip (s : String) : String :=
  String.mk (((s.data.dropWhile Char.isWhitespace).reverse.dropWhile
    Char.isWhitespace).reverse)

/-! ### The HTTP route layer of `src/registry/backend/routes/services.py`,
restricted to the store interaction each handler performs. -/

/-- Route `GET /api/v1/services` (`list_services`): returns
`service_store.get_all_services()`. -/
def list_services (st : ServiceStore) : List ServiceMetadata :=
  st.get_all_services

/-- Route `GET /api/v1/services/search/by-tags` (`search_services`): when
the `tags` query parameter is truthy, splits it on commas, strips each
piece and delegates to `search_by_tags`; when it is absent (`None`) or
empty (both falsy in Python), returns `get_all_services()`. -/
def search_services (st : ServiceStore) (tags : Option String) : List ServiceMetadata :=
  match tags with
  | some s =>
    if s = "" then st.get_all_services
    else st.search_by_tags ((splitComma s).map pyStrip)
  | none => st.get_all_services

/-! ### The aggregate-health endpoint `GET /api/v1/health/all` of
`src/registry/backend/main.py`. -/

/-- Outcome of the outbound `client.get(health_url)` probe of one
service: `failure` models a raised exception (network error, timeout);
`response code body` models a received HTTP response, with `body = none`
when `response.json()` would raise (unparseable body). -/
inductive ProbeResult where
  | failure : ProbeResult
  | response (status_code : Int) (body : Option Json) : ProbeResult

/-- `health_data.get('status', '').lower()` on a parsed body: `none`
models a raised exception (`.get` on a non-object body, or `.lower()` on
a non-string status value); an absent `status` key yields the default
`''`. -/
def statusLowerOf : Json → Option String
  | Json.obj fields =>
    match dictLookup "status" fields with
    | none => some (pyLower "")
    | some (Json.str s) => some (pyLower s)
    | some _ => none
  | _ => none

/-- The per-service classification of `aggregate_health`: `"healthy"`
exactly when the probe returned HTTP 200 and the body's lowered `status`
field is `'healthy'` or `'ok'`; every failure path inside the `try`
block is caught and yields `"unhealthy"`. -/
def probeStatus : ProbeResult → String
  | ProbeResult.failure => "unhealthy"
  | ProbeResult.response status_code body =>
    if status_code = 200 then
      match body with
      | none => "unhealthy"
      | some health_data =>
        match statusLowerOf health_data with
        | none => "unhealthy"
        | some s => if s ∈ ["healthy", "ok"] then "healthy" else "unhealthy"
    else "unhealthy"

/-- `health_url = f"{service.base_url}{service.endpoints.get('health', '/health')}"`. -/
def health_url (svc : ServiceMetadata) : String :=
  svc.base_url ++ ((dictLookup "health" svc.endpoints).getD "/health")

/-- One value of the `health_status` mapping built by `aggregate_health`. -/
structure HealthEntry where
  service_name : String
  status : String
  base_url : String
  last_heartbeat : Option String

/-- The entry `aggregate_health` stores for one service, given the probe
outcome for its health URL. -/
def serviceHealthEntry (probe : String → ProbeResult) (svc : ServiceMetadata) :
    HealthEntry :=
  { service_name := svc.service_name
    status := probeStatus (probe (health_url svc))
    base_url := svc.base_url
    last_heartbeat := svc.last_heartbeat }

/-- `aggregate_health` of `src/registry/backend/main.py`: walks
`service_store.get_all_services()`, probes each service's health URL and
assigns `health_status[service.service_id] = {...}`.  The outcome of
each outbound call is abstracted by the `probe` oracle. -/
def aggregate_health (st : ServiceStore) (probe : String → ProbeResult) :
    List (String × HealthEntry) :=
  st.get_all_services.foldl
    (fun acc svc => dictInsert svc.service_id (serviceHealthEntry probe svc) acc) []

/-- Restatement of the claim's healthiness criterion, to be compared
with the code's classification: the probe produced HTTP 200 with a
parseable object body whose `status` field is a string reading
(case-insensitively) `"healthy"` or `"ok"`. -/
def probeReportsHealthy (r : ProbeResult) : Prop :=
  ∃ fields s, r = ProbeResult.response 200 (some (Json.obj fields)) ∧
    dictLookup "status" fields = some (Json.str s) ∧
    (pyLower s = "healthy" ∨ pyLower s = "ok")

/-! ### Operation sequences over the store, for the reachability
invariant relating the two internal maps. -/

/-- One mutating `ServiceStore` call. -/
inductive Op where
  | add (metadata : ServiceMetadata) (now : Int) : Op
  | remove (service_id : String) : Op
  | heartbeat (service_id : String) (now : Int) : Op

/-- The store state after one mutating call (return values discarded). -/
def applyOp (st : ServiceStore) : Op → ServiceStore
  | Op.add m now => st.add_service m now
  | Op.remove sid => (st.remove_service sid).2
  | Op.heartbeat sid now => (st.update_heartbeat sid now).2

/-- The store state after a sequence of mutating calls. -/
def runOps (st : ServiceStore) : List Op → ServiceStore
  | [] => st
  | op :: rest => runOps (applyOp st op) rest

/-- The keys of an association list are pairwise distinct — every state
representing a Python `dict` satisfies this. -/
def keysNodup {α : Type} (l : List (String × α)) : Prop :=
  (l.map Prod.fst).Nodup

/-- Store well-formedness: both maps are valid dicts and their key sets
coincide. -/
def StoreInv (st : ServiceStore) : Prop :=
  keysNodup st.services ∧ keysNodup st.heartbeats ∧
  ∀ id, (dictLookup id st.services).isSome ↔ (dictLookup id st.heartbeats).isSome

/-! ### Concrete sample data for witnesses. -/

/-- A concrete `ServiceMetadata` value with the pydantic defaults for
`description`, `capabilities` and `last_heartbeat`, and a fixed
construction-time `registered_at`. -/
def mkSample (service_id : String) (tags : List String) : ServiceMetadata :=
  { service_id := service_id
    service_name := "Sample Service"
    version := "1.0.0"
    description := ""
    base_url := "http://localhost:8001"
    port := 8001
    endpoints := [("health", "/health")]
    input_schema := Json.obj []
    output_schema := Json.obj []
    tags := tags
    capabilities := none
    registered_at := "2025-11-30T12:00:00"
    last_heartbeat := none }

/-- Sample registration. -/
def sampleRecord : ServiceMetadata := mkSample "svc1" ["cardio", "classification"]

/-- Re-registration of `"svc1"` with different fields. -/
def sampleRecord2 : ServiceMetadata := mkSample "svc1" ["neuro"]

/-- A service whose heartbeat will be fresh. -/
def freshRecord : ServiceMetadata := mkSample "fresh" []

/-- A service whose heartbeat will be stale. -/
def staleRecord : ServiceMetadata := mkSample "stale" []

/-- Store holding the single sample registration (registered at clock 0). -/
def store1 : ServiceStore := emptyStore.add_service sampleRecord 0

/-- Store with one stale (clock 30) and one fresh (clock 90) service. -/
def store2 : ServiceStore :=
  (emptyStore.add_service staleRecord 30).add_service freshRecord 90

/-- Probe oracle answering the sample service's health URL with
HTTP 200 and body `{"status": "OK"}`, and failing on any other URL. -/
def probe1 : String → ProbeResult := fun url =>
  if url = "http://localhost:8001/health" then
    ProbeResult.response 200 (some (Json.obj [("status", Json.str "OK")]))
  else
    ProbeResult.failure

/-! ### Association-list lemmas. -/

theorem dictLookup_dictInsert {α : Type} (k a : String) (v : α) (l : List (String × α)) :
    dictLookup a (dictInsert k v l) = if a = k then some v else dictLookup a l := by
  induction l with
  | nil =>
    by_cases h : a = k
    · subst h; simp [dictInsert, dictLookup]
    · simp [dictInsert, dictLookup, h, Ne.symm h]
  | cons p rest ih =>
    obtain ⟨k', v'⟩ := p
    by_cases hk : k' = k
    · subst hk
      by_cases h : a = k'
      · subst h; simp [dictInsert, dictLookup]
      · simp [dictInsert, dictLookup, h, Ne.symm h]
    · by_cases h : a = k
      · subst h
        have hka : k' ≠ a := hk
        simp [dictInsert, dictLookup, hk, hka, ih]
      · simp [dictInsert, dictLookup, hk, h, ih]

theorem dictLookup_isSome_of_mem {α : Type} {k : String} {v : α}
    {l : List (String × α)} (h : (k, v) ∈ l) : (dictLookup k l).isSome = true := by
  induction l with
  | nil => cases h
  | cons p rest ih =>
    obtain ⟨k', v'⟩ := p
    by_cases hk : k' = k
    · simp [dictLookup, hk]
    · rcases List.mem_cons.mp h with h1 | h1
      · exact absurd (congrArg Prod.fst h1).symm hk
      · simp [dictLookup, hk, ih h1]

theorem mem_keys_of_dictLookup_isSome {α : Type} {k : String} {l : List (String × α)}
    (h : (dictLookup k l).isSome = true) : k ∈ l.map Prod.fst := by
  induction l with
  | nil => simp [dictLookup] at h
  | cons p rest ih =>
    obtain ⟨k', v'⟩ := p
    by_cases hk : k' = k
    · simp [hk]
    · simp [dictLookup, hk] at h
      simp [ih h]

theorem dictLookup_none_of_not_mem_keys {α : Type} {k : String} {l : List (String × α)}
    (h : k ∉ l.map Prod.fst) : dictLookup k l = none := by
  induction l with
  | nil => rfl
  | cons p rest ih =>
    obtain ⟨k', v'⟩ := p
    have h1 : k' ≠ k := fun hh => h (by simp [hh])
    have h2 : k ∉ rest.map Prod.fst := fun hh => h (by simp [hh])
    simp [dictLookup, h1, ih h2]

theorem mem_keys_dictInsert {α : Type} (k a : String) (v : α) (l : List (String × α)) :
    a ∈ (dictInsert k v l).map Prod.fst ↔ a = k ∨ a ∈ l.map Prod.fst := by
  induction l with
  | nil => simp [dictInsert]
  | cons p rest ih =>
    obtain ⟨k', v'⟩ := p
    by_cases hk : k' = k
    · subst hk; simp [dictInsert]
    · simp [dictInsert, hk, ih]
      tauto

theorem keysNodup_dictInsert {α : Type} (k : String) (v : α) {l : List (String × α)}
    (h : keysNodup l) : keysNodup (dictInsert k v l) := by
  induction l with
  | nil => simp [keysNodup, dictInsert]
  | cons p rest ih =>
    obtain ⟨k', v'⟩ := p
    have h0 : (k' :: rest.map Prod.fst).Nodup := h
    have h' : keysNodup rest := (List.nodup_cons.mp h0).2
    have hk' : k' ∉ rest.map Prod.fst := (List.nodup_cons.mp h0).1
    by_cases hk : k' = k
    · subst hk
      simp only [keysNodup, dictInsert, if_pos rfl, List.map_cons]
      exact List.nodup_cons.mpr ⟨hk', h'⟩
    · simp only [keysNodup, dictInsert, if_neg hk, List.map_cons]
      refine List.nodup_cons.mpr ⟨?_, ih h'⟩
      intro hmem
      rcases (mem_keys_dictInsert k k' v rest).mp hmem with h1 | h1
      · exact hk h1
      · exact hk' h1

theorem dictErase_sublist {α : Type} (k : String) (l : List (String × α)) :
    (dictErase k l).Sublist l := by
  induction l with
  | nil => simp [dictErase]
  | cons p rest ih =>
    obtain ⟨k', v'⟩ := p
    by_cases hk : k' = k
    · simp [dictErase, hk]
    · simpa [dictErase, hk] using ih.cons₂ (k', v')

theorem keysNodup_dictErase {α : Type} (k : String) {l : List (String × α)}
    (h : keysNodup l) : keysNodup (dictErase k l) :=
  ((dictErase_sublist k l).map Prod.fst).nodup h

theorem dictLookup_dictErase_ne {α : Type} (k a : String) (l : List (String × α))
    (h : a ≠ k) : dictLookup a (dictErase k l) = dictLookup a l := by
  induction l with
  | nil => rfl
  | cons p rest ih =>
    obtain ⟨k', v'⟩ := p
    by_cases hk : k' = k
    · subst hk
      simp [dictErase, dictLookup, Ne.symm h]
    · simp [dictErase, dictLookup, hk, ih]

theorem dictLookup_dictErase_self {α : Type} (k : String) {l : List (String × α)}
    (h : keysNodup l) : dictLookup k (dictErase k l) = none := by
  induction l with
  | nil => rfl
  | cons p rest ih =>
    obtain ⟨k', v'⟩ := p
    have h' : keysNodup rest := (List.nodup_cons.mp h).2
    have hk' : k' ∉ rest.map Prod.fst := (List.nodup_cons.mp h).1
    by_cases hk : k' = k
    · subst hk
      simp [dictErase]
      exact dictLookup_none_of_not_mem_keys hk'
    · simp [dictErase, dictLookup, hk, ih h']

theorem map_fst_dictMapAt {α : Type} (k : String) (f : α → α) (l : List (String × α)) :
    (dictMapAt k f l).map Prod.fst = l.map Prod.fst := by
  induction l with
  | nil => rfl
  | cons p rest ih =>
    obtain ⟨k', v'⟩ := p
    by_cases hk : k' = k
    · simp [dictMapAt, hk]
    · simp [dictMapAt, hk, ih]

theorem dictLookup_dictMapAt {α : Type} (k a : String) (f : α → α)
    (l : List (String × α)) :
    dictLookup a (dictMapAt k f l) =
      if a = k then (dictLookup a l).map f else dictLookup a l := by
  induction l with
  | nil => simp [dictMapAt, dictLookup]
  | cons p rest ih =>
    obtain ⟨k', v'⟩ := p
    by_cases hk : k' = k
    · subst hk
      by_cases h : a = k'
      · subst h; simp [dictMapAt, dictLookup]
      · simp [dictMapAt, dictLookup, h, Ne.symm h]
    · by_cases h : a = k
      · subst h
        have hka : k' ≠ a := hk
        simp [dictMapAt, dictLookup, hk, hka, ih]
      · simp [dictMapAt, dictLookup, hk, h, ih]

theorem length_dictInsert_of_isSome {α : Type} (k : String) (v : α)
    {l : List (String × α)} (h : (dictLookup k l).isSome = true) :
    (dictInsert k v l).length = l.length := by
  induction l with
  | nil => simp [dictLookup] at h
  | cons p rest ih =>
    obtain ⟨k', v'⟩ := p
    by_cases hk : k' = k
    · simp [dictInsert, hk]
    · simp [dictLookup, hk] at h
      simp [dictInsert, hk, ih h]

theorem length_dictErase_of_isSome {α : Type} (k : String)
    {l : List (String × α)} (h : (dictLookup k l).isSome = true) :
    (dictErase k l).length + 1 = l.length := by
  induction l with
  | nil => simp [dictLookup] at h
  | cons p rest ih =>
    obtain ⟨k', v'⟩ := p
    by_cases hk : k' = k
    · simp [dictErase, hk]
    · simp [dictLookup, hk] at h
      simp [dictErase, hk, ih h]

/-! ### Lemmas about the healthy-service comprehension. -/

theorem healthyAux_isSome {services : List (String × ServiceMetadata)}
    {hbs : List (String × Int)}
    (h : ∀ p ∈ hbs, (dictLookup p.1 services).isSome = true) :
    (ServiceStore.healthyAux services hbs).isSome = true := by
  induction hbs with
  | nil => rfl
  | cons p rest ih =>
    obtain ⟨sid, hb⟩ := p
    have h1 := h (sid, hb) (List.mem_cons_self _ _)
    have h2 := ih (fun q hq => h q (List.mem_cons_of_mem _ hq))
    obtain ⟨m, hm⟩ := Option.isSome_iff_exists.mp h1
    obtain ⟨L, hL⟩ := Option.isSome_iff_exists.mp h2
    simp [ServiceStore.healthyAux, hm, hL]

theorem healthyAux_mem {services : List (String × ServiceMetadata)}
    {hbs : List (String × Int)} {L : List ServiceMetadata}
    (hL : ServiceStore.healthyAux services hbs = some L) (m : ServiceMetadata) :
    m ∈ L ↔ ∃ p ∈ hbs, dictLookup p.1 services = some m := by
  induction hbs generalizing L with
  | nil =>
    simp [ServiceStore.healthyAux] at hL
    subst hL
    simp
  | cons p rest ih =>
    obtain ⟨sid, hb⟩ := p
    simp only [ServiceStore.healthyAux] at hL
    cases hm : dictLookup sid services with
    | none => rw [hm] at hL; cases hL
    | some m0 =>
      rw [hm] at hL
      cases hrest : ServiceStore.healthyAux services rest with
      | none => rw [hrest] at hL; cases hL
      | some L0 =>
        rw [hrest] at hL
        cases hL
        constructor
        · intro hmem
          rcases List.mem_cons.mp hmem with h1 | h1
          · exact ⟨(sid, hb), List.mem_cons_self _ _, h1 ▸ hm⟩
          · obtain ⟨q, hq, hlq⟩ := (ih hrest).mp h1
            exact ⟨q, List.mem_cons_of_mem _ hq, hlq⟩
        · rintro ⟨q, hq, hlq⟩
          rcases List.mem_cons.mp hq with h1 | h1
          · subst h1
            rw [hm] at hlq
            cases hlq
            exact List.mem_cons_self _ _
          · exact List.mem_cons_of_mem _ ((ih hrest).mpr ⟨q, h1, hlq⟩)

/-! ### Lemmas about the aggregate-health fold. -/

theorem aggregate_foldl_lookup_of_not_mem (probe : String → ProbeResult)
    (l : List ServiceMetadata) (acc : List (String × HealthEntry)) (a : String)
    (h : a ∉ l.map (fun m => m.service_id)) :
    dictLookup a
      (l.foldl (fun acc svc =>
        dictInsert svc.service_id (serviceHealthEntry probe svc) acc) acc) =
      dictLookup a acc := by
  induction l generalizing acc with
  | nil => rfl
  | cons svc rest ih =>
    have h1 : a ≠ svc.service_id := fun hh => h (by simp [hh])
    have h2 : a ∉ rest.map (fun m => m.service_id) := fun hh => h (by simp [hh])
    rw [List.foldl_cons, ih _ h2, dictLookup_dictInsert, if_neg h1]

theorem aggregate_foldl_lookup_of_mem (probe : String → ProbeResult)
    {l : List ServiceMetadata} (acc : List (String × HealthEntry))
    {svc : ServiceMetadata} (hnd : (l.map (fun m => m.service_id)).Nodup)
    (hm : svc ∈ l) :
    dictLookup svc.service_id
      (l.foldl (fun acc svc =>
        dictInsert svc.service_id (serviceHealthEntry probe svc) acc) acc) =
      some (serviceHealthEntry probe svc) := by
  induction l generalizing acc with
  | nil => cases hm
  | cons hd rest ih =>
    have hnd' : (rest.map (fun m => m.service_id)).Nodup :=
      (List.nodup_cons.mp hnd).2
    rcases List.mem_cons.mp hm with h1 | h1
    · subst h1
      have hnot : svc.service_id ∉ rest.map (fun m => m.service_id) :=
        (List.nodup_cons.mp hnd).1
      rw [List.foldl_cons,
        aggregate_foldl_lookup_of_not_mem probe rest _ _ hnot,
        dictLookup_dictInsert, if_pos rfl]
    · rw [List.foldl_cons]
      exact ih _ hnd' h1

/-! ### Lemmas about the probe classification. -/

theorem probeStatus_cases (r : ProbeResult) :
    probeStatus r = "healthy" ∨ probeStatus r = "unhealthy" := by
  cases r with
  | failure => right; rfl
  | response code body =>
    by_cases hc : code = 200
    · cases body with
      | none => right; simp [probeStatus, hc]
      | some hd =>
        cases hsl : statusLowerOf hd with
        | none => right; simp [probeStatus, hc, hsl]
        | some s =>
          by_cases hmem : s ∈ ["healthy", "ok"]
          · left; simp [probeStatus, hc, hsl, hmem]
          · right; simp [probeStatus, hc, hsl, hmem]
    · right; simp [probeStatus, hc]

theorem statusLowerOf_eq_some {hd : Json} {s : String}
    (h : statusLowerOf hd = some s) :
    ∃ fields, hd = Json.obj fields ∧
      ((dictLookup "status" fields = none ∧ s = pyLower "") ∨
        ∃ s0, dictLookup "status" fields = some (Json.str s0) ∧ s = pyLower s0) := by
  cases hd with
  | obj fields =>
    refine ⟨fields, rfl, ?_⟩
    cases hlk : dictLookup "status" fields with
    | none =>
      left
      simp [statusLowerOf, hlk] at h
      exact ⟨rfl, h.symm⟩
    | some jv =>
      cases jv with
      | str s0 =>
        right
        simp [statusLowerOf, hlk] at h
        exact ⟨s0, rfl, h.symm⟩
      | null => simp [statusLowerOf, hlk] at h
      | bool b => simp [statusLowerOf, hlk] at h
      | num n => simp [statusLowerOf, hlk] at h
      | arr elems => simp [statusLowerOf, hlk] at h
      | obj fields2 => simp [statusLowerOf, hlk] at h
  | null => simp [statusLowerOf] at h
  | bool b => simp [statusLowerOf] at h
  | num n => simp [statusLowerOf] at h
  | str s0 => simp [statusLowerOf] at h
  | arr elems => simp [statusLowerOf] at h

theorem probeStatus_eq_healthy_iff (r : ProbeResult) :
    probeStatus r = "healthy" ↔ probeReportsHealthy r := by
  constructor
  · intro h
    cases r with
    | failure => exact absurd h (by decide)
    | response code body =>
      by_cases hc : code = 200
      · subst hc
        cases body with
        | none => exact absurd h (by decide)
        | some hd =>
          cases hsl : statusLowerOf hd with
          | none =>
            simp [probeStatus, hsl] at h
          | some s =>
            by_cases hmem : s ∈ ["healthy", "ok"]
            · obtain ⟨fields, rfl, hdisj⟩ := statusLowerOf_eq_some hsl
              rcases hdisj with ⟨hlk, rfl⟩ | ⟨s0, hlk, rfl⟩
              · exact absurd hmem (by decide)
              · refine ⟨fields, s0, rfl, hlk, ?_⟩
                simpa using hmem
            · simp [probeStatus, hsl, hmem] at h
      · simp [probeStatus, hc] at h
  · rintro ⟨fields, s, heq, hlk, hread⟩
    subst heq
    have hmem : pyLower s ∈ ["healthy", "ok"] := by
      rcases hread with h | h <;> simp [h]
    simp [probeStatus, statusLowerOf, hlk, hmem]

/-! ### Lemmas about the route-layer string parsing. -/

theorem splitCommaChars_ne_nil (l : List Char) : splitCommaChars l ≠ [] := by
  cases l with
  | nil => simp [splitCommaChars]
  | cons c rest =>
    simp only [splitCommaChars]
    cases h : splitCommaChars rest with
    | nil => simp
    | cons grp grps =>
      by_cases hc : c = ',' <;> simp [hc]

theorem splitComma_ne_nil (s : String) : splitComma s ≠ [] := by
  simp [splitComma, splitCommaChars_ne_nil]

/-! ### Preservation of store well-formedness. -/

theorem storeInv_empty : StoreInv emptyStore := by
  refine ⟨List.nodup_nil, List.nodup_nil, fun id => ?_⟩
  simp [emptyStore, dictLookup]

theorem storeInv_applyOp {st : ServiceStore} (h : StoreInv st) (op : Op) :
    StoreInv (applyOp st op) := by
  obtain ⟨hs, hh, hiff⟩ := h
  cases op with
  | add m now =>
    refine ⟨keysNodup_dictInsert _ _ hs, keysNodup_dictInsert _ _ hh, fun a => ?_⟩
    simp only [applyOp, ServiceStore.add_service, dictLookup_dictInsert]
    by_cases ha : a = m.service_id
    · simp [ha]
    · simp [ha, hiff a]
  | remove sid =>
    by_cases hex : (dictLookup sid st.services).isSome = true
    · have hstep : applyOp st (Op.remove sid) =
          { services := dictErase sid st.services
            heartbeats := dictErase sid st.heartbeats } := by
        simp [applyOp, ServiceStore.remove_service, hex]
      rw [hstep]
      refine ⟨keysNodup_dictErase _ hs, keysNodup_dictErase _ hh, fun a => ?_⟩
      by_cases ha : a = sid
      · subst ha
        simp [dictLookup_dictErase_self a hs, dictLookup_dictErase_self a hh]
      · simp [dictLookup_dictErase_ne sid a _ ha, hiff a]
    · have hstep : applyOp st (Op.remove sid) = st := by
        simp [applyOp, ServiceStore.remove_service, hex]
      rw [hstep]
      exact ⟨hs, hh, hiff⟩
  | heartbeat sid now =>
    by_cases hex : (dictLookup sid st.services).isSome = true
    · have hstep : applyOp st (Op.heartbeat sid now) =
          { services := dictMapAt sid
              (fun m => { m with last_heartbeat := some (isoformat now) }) st.services
            heartbeats := dictInsert sid now st.heartbeats } := by
        simp [applyOp, ServiceStore.update_heartbeat, hex]
      rw [hstep]
      have hsnodup : keysNodup (dictMapAt sid
          (fun m => { m with last_heartbeat := some (isoformat now) }) st.services) := by
        simp only [keysNodup, map_fst_dictMapAt]
        exact hs
      refine ⟨hsnodup, keysNodup_dictInsert _ _ hh, fun a => ?_⟩
      rw [dictLookup_dictMapAt, dictLookup_dictInsert]
      by_cases ha : a = sid
      · subst ha
        simp [hex]
      · simp [ha, hiff a]
    · have hstep : applyOp st (Op.heartbeat sid now) = st := by
        simp [applyOp, ServiceStore.update_heartbeat, hex]
      rw [hstep]
      exact ⟨hs, hh, hiff⟩

theorem storeInv_runOps (ops : List Op) {st : ServiceStore} (h : StoreInv st) :
    StoreInv (runOps st ops) := by
  induction ops generalizing st with
  | nil => exact h
  | cons op rest ih => exact ih (storeInv_applyOp h op)

/-! ### Further shared helper lemmas. -/

theorem mem_of_dictLookup_eq_some {α : Type} {k : String} {v : α}
    {l : List (String × α)} (h : dictLookup k l = some v) : (k, v) ∈ l := by
  induction l with
  | nil => cases h
  | cons p rest ih =>
    obtain ⟨k', v'⟩ := p
    by_cases hk : k' = k
    · subst hk
      simp [dictLookup] at h
      subst h
      exact List.mem_cons_self _ _
    · simp [dictLookup, hk] at h
      exact List.mem_cons_of_mem _ (ih h)

theorem search_by_tags_mem (st : ServiceStore) {tags : List String}
    (h : tags ≠ []) (m : ServiceMetadata) :
    m ∈ st.search_by_tags tags ↔
      m ∈ st.get_all_services ∧ ∃ t ∈ tags, t ∈ m.tags := by
  have hne : tags.isEmpty = false := by
    cases tags with
    | nil => exact absurd rfl h
    | cons t ts => rfl
  simp only [ServiceStore.search_by_tags, hne, Bool.false_eq_true, if_false]
  rw [List.mem_filter]
  constructor
  · rintro ⟨hmem, hp⟩
    refine ⟨hmem, ?_⟩
    obtain ⟨t, ht, htt⟩ := List.any_eq_true.mp hp
    exact ⟨t, ht, List.elem_iff.mp htt⟩
  · rintro ⟨hmem, t, ht, htt⟩
    exact ⟨hmem, List.any_eq_true.mpr ⟨t, ht, List.elem_iff.mpr htt⟩⟩

/-! ### Claim theorems. -/

/-- C1 counterexample: after `add_service`, `get_service` returns the
record exactly as submitted, and in particular its `last_heartbeat`
field is still `None` for a record submitted with the pydantic default —
`add_service` does not set the record's `last_heartbeat` field (it only
stamps the internal heartbeat map), refuting the claim that `get` after
`add` returns the record "with its last_heartbeat field set". -/
theorem add_get_last_heartbeat_field_unset :
    (emptyStore.add_service sampleRecord 10).get_service "svc1" = some sampleRecord ∧
    ((emptyStore.add_service sampleRecord 10).get_service "svc1").map
      (fun m => m.last_heartbeat) = some none := by
  exact ⟨rfl, rfl⟩

/-- C1 (amended): for every record `r`, after `add_service r` the store
returns `r` itself from `get_service r.service_id` (all fields verbatim,
so `registered_at` is present as populated at construction, and
`last_heartbeat` is exactly as submitted), and the internal heartbeat
map entry for `r.service_id` is set to `now()` — registration counts as
a heartbeat for the liveness map, not for the record field. -/
theorem add_then_get_returns_submitted_record (st : ServiceStore)
    (r : ServiceMetadata) (now : Int) :
    (st.add_service r now).get_service r.service_id = some r ∧
    dictLookup r.service_id (st.add_service r now).heartbeats = some now := by
  constructor
  · simp [ServiceStore.get_service, ServiceStore.add_service, dictLookup_dictInsert]
  · simp [ServiceStore.add_service, dictLookup_dictInsert]

/-- C2: `update_heartbeat` on a registered id returns `True`, stamps the
internal heartbeat map with `now` and sets the stored record's
`last_heartbeat` field to the rendered timestamp; on an unknown id it
returns `False` and the store is returned entirely unchanged (no record
and no heartbeat entry is created). -/
theorem update_heartbeat_spec (st : ServiceStore) (service_id : String) (now : Int) :
    (∀ m, st.get_service service_id = some m →
      (st.update_heartbeat service_id now).1 = true ∧
      (st.update_heartbeat service_id now).2.get_service service_id =
        some { m with last_heartbeat := some (isoformat now) } ∧
      dictLookup service_id (st.update_heartbeat service_id now).2.heartbeats =
        some now) ∧
    (st.get_service service_id = none →
      st.update_heartbeat service_id now = (false, st)) := by
  constructor
  · intro m hm
    have hm' : dictLookup service_id st.services = some m := hm
    have hex : (dictLookup service_id st.services).isSome = true := by
      simp [hm']
    refine ⟨?_, ?_, ?_⟩
    · simp [ServiceStore.update_heartbeat, hex]
    · simp [ServiceStore.update_heartbeat, hex, ServiceStore.get_service,
        dictLookup_dictMapAt, hm']
    · simp [ServiceStore.update_heartbeat, hex, dictLookup_dictInsert]
  · intro hm
    have hm' : dictLookup service_id st.services = none := hm
    have hex : (dictLookup service_id st.services).isSome = false := by
      simp [hm']
    simp [ServiceStore.update_heartbeat, hex]

/-- Witness for C2 at a one-record store: the registered id is
acknowledged, the unknown id returns `False` with the store unchanged. -/
theorem update_heartbeat_spec_witness :
    (store1.update_heartbeat "svc1" 5).1 = true ∧
    store1.update_heartbeat "missing" 5 = (false, store1) := by
  constructor
  · exact ((update_heartbeat_spec store1 "svc1" 5).1 sampleRecord rfl).1
  · exact (update_heartbeat_spec store1 "missing" 5).2 rfl

/-- C3: whenever every heartbeat key is registered (which holds in every
reachable store state), `get_healthy_services` succeeds and returns
exactly the records whose heartbeat timestamp is strictly newer than
`now - timeout_seconds`; and staleness never deletes: any record
reachable through `get_service` is still listed by `get_all_services`,
stale heartbeat or not. -/
theorem get_healthy_services_spec (st : ServiceStore) (timeout_seconds now : Int)
    (h : ∀ p ∈ st.heartbeats, (dictLookup p.1 st.services).isSome = true) :
    ∃ L, st.get_healthy_services timeout_seconds now = some L ∧
      (∀ m, m ∈ L ↔ ∃ sid hb, (sid, hb) ∈ st.heartbeats ∧
        now - timeout_seconds < hb ∧ st.get_service sid = some m) ∧
      (∀ sid m, st.get_service sid = some m → m ∈ st.get_all_services) := by
  have hfil : ∀ p ∈ st.heartbeats.filter (fun p => now - timeout_seconds < p.2),
      (dictLookup p.1 st.services).isSome = true :=
    fun p hp => h p (List.mem_filter.mp hp).1
  obtain ⟨L, hL⟩ := Option.isSome_iff_exists.mp (healthyAux_isSome hfil)
  refine ⟨L, hL, ?_, ?_⟩
  · intro m
    constructor
    · intro hm
      obtain ⟨p, hp, hlp⟩ := (healthyAux_mem hL m).mp hm
      obtain ⟨sid, hb⟩ := p
      have hp' := List.mem_filter.mp hp
      exact ⟨sid, hb, hp'.1, by simpa using hp'.2, hlp⟩
    · rintro ⟨sid, hb, hmem, hlt, hlp⟩
      exact (healthyAux_mem hL m).mpr
        ⟨(sid, hb), List.mem_filter.mpr ⟨hmem, by simpa using hlt⟩, hlp⟩
  · intro sid m hm
    have hm' : dictLookup sid st.services = some m := hm
    exact List.mem_map.mpr ⟨(sid, m), mem_of_dictLookup_eq_some hm', rfl⟩

/-- Witness for C3 at a store with one fresh and one stale heartbeat. -/
theorem get_healthy_services_spec_witness :
    ∃ L, store2.get_healthy_services 60 100 = some L := by
  obtain ⟨L, hL, -, -⟩ := get_healthy_services_spec store2 60 100 (by decide)
  exact ⟨L, hL⟩

/-- C4: `search_by_tags` with an empty tag list returns exactly
`get_all_services`; with a non-empty tag list it returns exactly the
registered records sharing at least one tag with the query, by exact
string equality — OR semantics over the supplied tags. -/
theorem search_by_tags_spec (st : ServiceStore) (tags : List String) :
    (tags = [] → st.search_by_tags tags = st.get_all_services) ∧
    (tags ≠ [] → ∀ m, m ∈ st.search_by_tags tags ↔
      m ∈ st.get_all_services ∧ ∃ t ∈ tags, t ∈ m.tags) := by
  constructor
  · intro h; subst h; rfl
  · intro h m
    exact search_by_tags_mem st h m

/-- Witness for C4: OR semantics at a concrete store — the record tagged
`["cardio", "classification"]` matches a search for `["classification"]`. -/
theorem search_by_tags_spec_witness :
    sampleRecord ∈ store1.search_by_tags ["classification"] := by
  refine ((search_by_tags_spec store1 ["classification"]).2 (by decide)
    sampleRecord).mpr ⟨?_, "classification", ?_, ?_⟩
  · exact List.mem_singleton.mpr rfl
  · decide
  · decide

/-- C5: `remove_service` returns `True` exactly when the id was
registered; in that case both the record and its heartbeat entry are
deleted, so `get_service` returns nothing afterwards and the count drops
by exactly one; on an unknown id it returns `False` with the store
unchanged — not an error. -/
theorem remove_service_spec (st : ServiceStore) (service_id : String)
    (hs : keysNodup st.services) (hh : keysNodup st.heartbeats) :
    ((st.remove_service service_id).1 = true ↔ st.service_exists service_id = true) ∧
    (st.service_exists service_id = true →
      (st.remove_service service_id).2.get_service service_id = none ∧
      dictLookup service_id (st.remove_service service_id).2.heartbeats = none ∧
      (st.remove_service service_id).2.get_service_count + 1 =
        st.get_service_count) ∧
    (st.service_exists service_id = false →
      st.remove_service service_id = (false, st)) := by
  refine ⟨?_, ?_, ?_⟩
  · by_cases hex : (dictLookup service_id st.services).isSome = true
    · simp [ServiceStore.remove_service, ServiceStore.service_exists, hex]
    · simp [ServiceStore.remove_service, ServiceStore.service_exists, hex]
  · intro hex
    have hex' : (dictLookup service_id st.services).isSome = true := hex
    refine ⟨?_, ?_, ?_⟩
    · simp [ServiceStore.remove_service, hex', ServiceStore.get_service,
        dictLookup_dictErase_self service_id hs]
    · simp [ServiceStore.remove_service, hex',
        dictLookup_dictErase_self service_id hh]
    · simp [ServiceStore.remove_service, hex', ServiceStore.get_service_count,
        length_dictErase_of_isSome service_id hex']
  · intro hex
    have hex' : ¬((dictLookup service_id st.services).isSome = true) := by
      intro hc
      rw [ServiceStore.service_exists] at hex
      rw [hex] at hc
      cases hc
    simp [ServiceStore.remove_service, hex']

/-- Witness for C5 at a one-record store. -/
theorem remove_service_spec_witness :
    (store1.remove_service "svc1").1 = true ∧
    (store1.remove_service "svc1").2.get_service "svc1" = none ∧
    store1.remove_service "missing" = (false, store1) := by
  have h1 := remove_service_spec store1 "svc1"
    (by decide : (store1.services.map Prod.fst).Nodup)
    (by decide : (store1.heartbeats.map Prod.fst).Nodup)
  have h2 := remove_service_spec store1 "missing"
    (by decide : (store1.services.map Prod.fst).Nodup)
    (by decide : (store1.heartbeats.map Prod.fst).Nodup)
  exact ⟨h1.1.mpr rfl, (h1.2.1 rfl).1, h2.2.2 rfl⟩

/-- C6: adding `r1` and then `r2` under the same `service_id` leaves
`r2` as the sole record under that id — `get_service` returns exactly
`r2` (no field of `r1` survives), the heartbeat-map timestamp is
refreshed to the second registration's clock, and the record count is
unchanged compared to after adding `r1` alone. -/
theorem reregistration_replaces_record (st : ServiceStore)
    (r1 r2 : ServiceMetadata) (now1 now2 : Int)
    (h : r1.service_id = r2.service_id) :
    ((st.add_service r1 now1).add_service r2 now2).get_service r1.service_id =
      some r2 ∧
    dictLookup r1.service_id
      ((st.add_service r1 now1).add_service r2 now2).heartbeats = some now2 ∧
    ((st.add_service r1 now1).add_service r2 now2).get_service_count =
      (st.add_service r1 now1).get_service_count := by
  refine ⟨?_, ?_, ?_⟩
  · simp [ServiceStore.get_service, ServiceStore.add_service,
      dictLookup_dictInsert, h]
  · simp [ServiceStore.add_service, dictLookup_dictInsert, h]
  · have hex : (dictLookup r2.service_id
        (dictInsert r1.service_id r1 st.services)).isSome = true := by
      rw [dictLookup_dictInsert, if_pos h.symm]
      rfl
    show (dictInsert r2.service_id r2
        (dictInsert r1.service_id r1 st.services)).length =
      (dictInsert r1.service_id r1 st.services).length
    exact length_dictInsert_of_isSome _ _ hex

/-- Witness for C6: re-registering `"svc1"` with different fields. -/
theorem reregistration_replaces_record_witness :
    ((emptyStore.add_service sampleRecord 1).add_service sampleRecord2 2).get_service
      "svc1" = some sampleRecord2 :=
  (reregistration_replaces_record emptyStore sampleRecord sampleRecord2 1 2 rfl).1

/-- C7: in the aggregate-health endpoint, every registered service gets
exactly one entry, keyed by its `service_id` with `service_name`,
`base_url` and `last_heartbeat` copied from its record; the entry's
status is always `"healthy"` or `"unhealthy"`, and it is `"healthy"` if
and only if the probe of the service's own health URL returned HTTP 200
with a parseable object body whose `status` field reads
(case-insensitively) `"healthy"` or `"ok"` — every probe failure mode is
downgraded to `"unhealthy"` for that service alone, never to an
API-level error. -/
theorem aggregate_health_spec (st : ServiceStore) (probe : String → ProbeResult)
    (hids : (st.get_all_services.map (fun m => m.service_id)).Nodup) :
    ∀ svc ∈ st.get_all_services,
      ∃ e, dictLookup svc.service_id (aggregate_health st probe) = some e ∧
        (e.status = "healthy" ↔ probeReportsHealthy (probe (health_url svc))) ∧
        (e.status = "healthy" ∨ e.status = "unhealthy") ∧
        e.service_name = svc.service_name ∧ e.base_url = svc.base_url ∧
        e.last_heartbeat = svc.last_heartbeat := by
  intro svc hm
  refine ⟨serviceHealthEntry probe svc, ?_, ?_, ?_, rfl, rfl, rfl⟩
  · exact aggregate_foldl_lookup_of_mem probe [] hids hm
  · exact probeStatus_eq_healthy_iff (probe (health_url svc))
  · exact probeStatus_cases (probe (health_url svc))

/-- Witness for C7: a probe answering `{"status": "OK"}` with HTTP 200
classifies the sample service healthy. -/
theorem aggregate_health_spec_witness :
    ∃ e, dictLookup "svc1" (aggregate_health store1 probe1) = some e ∧
      e.status = "healthy" := by
  obtain ⟨e, he, hiff, -, -, -, -⟩ :=
    aggregate_health_spec store1 probe1 (by decide) sampleRecord
      (List.mem_singleton.mpr rfl)
  refine ⟨e, he, hiff.mpr ?_⟩
  refine ⟨[("status", Json.str "OK")], "OK", ?_, rfl, Or.inr ?_⟩
  · rfl
  · decide

/-- C8: the search route with an absent (or empty, both falsy) `tags`
parameter returns the same array as the list route; with a non-empty
parameter it splits on commas, strips whitespace around each piece, and
returns exactly the records sharing a tag with some stripped piece. -/
theorem search_route_spec (st : ServiceStore) (s : String) :
    search_services st none = list_services st ∧
    search_services st (some "") = list_services st ∧
    (s ≠ "" → ∀ m, m ∈ search_services st (some s) ↔
      m ∈ st.get_all_services ∧ ∃ piece ∈ splitComma s, pyStrip piece ∈ m.tags) := by
  refine ⟨rfl, rfl, ?_⟩
  intro hs m
  have hroute : search_services st (some s) =
      st.search_by_tags ((splitComma s).map pyStrip) := by
    simp [search_services, hs]
  have hne : (splitComma s).map pyStrip ≠ [] := by
    intro hnil
    exact splitComma_ne_nil s (List.map_eq_nil_iff.mp hnil)
  rw [hroute, search_by_tags_mem st hne m]
  constructor
  · rintro ⟨hmem, t, ht, htt⟩
    obtain ⟨piece, hpiece, rfl⟩ := List.mem_map.mp ht
    exact ⟨hmem, piece, hpiece, htt⟩
  · rintro ⟨hmem, piece, hpiece, hp⟩
    exact ⟨hmem, pyStrip piece, List.mem_map.mpr ⟨piece, hpiece, rfl⟩, hp⟩

/-- Witness for C8: a query string with whitespace around a tag matches
after stripping. -/
theorem search_route_spec_witness :
    sampleRecord ∈ search_services store1 (some " cardio ,nope") := by
  refine ((search_route_spec store1 " cardio ,nope").2.2 (by decide)
    sampleRecord).mpr ⟨?_, " cardio ", ?_, ?_⟩
  · exact List.mem_singleton.mpr rfl
  · decide
  · decide

/-- C10: in every store state reachable from the empty store by
`add_service` / `remove_service` / `update_heartbeat` calls, a service
id has a heartbeat entry exactly when it has a record, and consequently
the record lookup inside `get_healthy_services` never hits a missing key
(the comprehension never raises). -/
theorem heartbeat_keys_invariant (ops : List Op) (timeout_seconds now : Int) :
    (∀ id, ((runOps emptyStore ops).get_service id).isSome ↔
      (dictLookup id (runOps emptyStore ops).heartbeats).isSome) ∧
    ((runOps emptyStore ops).get_healthy_services timeout_seconds now).isSome = true := by
  obtain ⟨hs, hh, hiff⟩ := storeInv_runOps ops storeInv_empty
  constructor
  · intro id
    exact hiff id
  · apply healthyAux_isSome
    intro p hp
    obtain ⟨sid, hb⟩ := p
    have hp' : (sid, hb) ∈ (runOps emptyStore ops).heartbeats :=
      (List.mem_filter.mp hp).1
    exact (hiff sid).mpr (dictLookup_isSome_of_mem hp')

end MedicalML
